import Mathlib

/-!
Shallow embedding of the resume-matching agent (`src/resume_agent.py`) and of
the Flask trigger wrapper (`src/server.py`).

Python strings are modelled as Lean `String`s (sequences of code points); the
string operations the source uses that do not kernel-reduce in Lean
(`str.split`, `str.strip`, `str.lower`, `str.endswith`) are re-implemented on
`List Char` following Python's semantics.  Python floats are modelled as exact
rationals.  The external collaborators (S3, the OCR engine, PyMuPDF, the
embedding model, Qdrant) are oracles passed in as function arguments; MongoDB
documents are explicit records whose loosely-typed `rag_uploaded` field is a
small BSON value type.
-/

/-- Python's `\s` whitespace class (ASCII part): space, tab, newline,
carriage return, vertical tab, form feed. -/
def pyWs (c : Char) : Bool :=
  c.toNat == 32 || c.toNat == 9 || c.toNat == 10 || c.toNat == 13 ||
  c.toNat == 11 || c.toNat == 12

/-- Python's `not s.strip()`: the string is empty or whitespace-only. -/
def pyBlank (s : String) : Bool :=
  s.data.all pyWs

/-- Python's `str.split(sep)` for a non-empty separator `sep`, on code-point
lists: scan left to right, cutting at each (non-overlapping) occurrence of
`sep`.  For an empty separator Python raises; we return `[l]` so the function
is total (the source only ever splits on `".amazonaws.com/"`). -/
def pySplit (sep : List Char) (l : List Char) : List (List Char) :=
  if hsep : sep.length = 0 then [l]
  else
    match l with
    | [] => [[]]
    | c :: rest =>
      if sep.isPrefixOf (c :: rest) then
        [] :: pySplit sep (List.drop sep.length (c :: rest))
      else
        match pySplit sep rest with
        | [] => [[c]]
        | p :: ps => (c :: p) :: ps
termination_by l.length
decreasing_by
  · simp only [List.length_drop, List.length_cons]
    omega
  · simp only [List.length_cons]
    omega

/-- The marker used by `extract_s3_key` (resume_agent.py line 121). -/
def s3Marker : List Char := ".amazonaws.com/".data

/-- `extract_s3_key` (resume_agent.py lines 120-121):
`url.split(".amazonaws.com/")[-1]`.  `split` always returns a non-empty list,
so Python's `[-1]` is the last element. -/
def extract_s3_key (url : List Char) : List Char :=
  (pySplit s3Marker url).getLastD []

/-- `key.lower().endswith((".jpg", ".jpeg", ".png"))`
(resume_agent.py line 132). -/
def isImageKey (key : List Char) : Bool :=
  let k := key.map Char.toLower
  ".jpg".data.isSuffixOf k || ".jpeg".data.isSuffixOf k || ".png".data.isSuffixOf k

/-- Outcome of the structured (PDF text layer) extraction attempt
(resume_agent.py lines 137-139): either the per-page texts, or an exception
raised after a prefix of the pages had already been accumulated into `text`. -/
inductive StructRes
  | ok (pages : List String)
  | raised (pagesSoFar : List String)

/-- The `text += ...` accumulation over a list of page/OCR strings. -/
def joinPages (pages : List String) : String :=
  pages.foldl (fun t p => t ++ p) ""

/-- The text accumulated by `extract_text_from_s3` (resume_agent.py lines
130-148) before the final emptiness check: image keys go straight to OCR;
otherwise the structured text layer is used, with the rasterize-and-OCR
fallback appended when the text layer is blank, and the same fallback used
when structured extraction raises (the bare `except` on line 144). -/
def accumText (key : List Char) (imageOcr : String) (sres : StructRes)
    (ocrPages : List String) : String :=
  if isImageKey key then imageOcr
  else
    match sres with
    | StructRes.ok pages =>
      if pyBlank (joinPages pages) then joinPages pages ++ joinPages ocrPages
      else joinPages pages
    | StructRes.raised pagesSoFar => joinPages pagesSoFar ++ joinPages ocrPages

/-- `extract_text_from_s3` (resume_agent.py lines 123-154), with the S3
download, OCR and PDF collaborators abstracted as oracle arguments:
`imageOcr` is what `pytesseract.image_to_string` returns on the decoded
image, `sres` is the structured-extraction outcome, `ocrPages` are the
per-page OCR results of `convert_from_bytes`.  Raises `ValueError("No text
extracted")` iff the accumulated text is empty or whitespace-only. -/
def extract_text_from_s3 (url : List Char) (imageOcr : String)
    (sres : StructRes) (ocrPages : List String) : Except String String :=
  let text := accumText (extract_s3_key url) imageOcr sres ocrPages
  if pyBlank text then Except.error "No text extracted" else Except.ok text

/-- A loosely-typed BSON field value, enough to model the `rag_uploaded`
field which the query on lines 176-180 matches against the boolean `False`,
the string `"False"`, or absence. -/
inductive BsonVal
  | missing
  | boolVal (b : Bool)
  | strVal (s : String)
  | numVal (n : Int)
deriving DecidableEq

/-- An `applications` document, with the fields the pipelines read/write. -/
structure AppRecord where
  _id : String
  resume : Option String
  resume_status : String
  rag_uploaded : BsonVal
  error : Option String
deriving DecidableEq

/-- The indexing eligibility query (resume_agent.py lines 173-181):
`resume` exists and matches `^http`, `resume_status == "open"`, and
`rag_uploaded` is the boolean `False`, the string `"False"`, or missing. -/
def eligibleB (r : AppRecord) : Bool :=
  (match r.resume with
   | some s => "http".data.isPrefixOf s.data
   | none => false)
  && r.resume_status == "open"
  && (match r.rag_uploaded with
      | BsonVal.missing => true
      | BsonVal.boolVal b => b == false
      | BsonVal.strVal s => s == "False"
      | BsonVal.numVal _ => false)

/-- The per-record outcome of the extract/embed chain, applied to the stored
document (resume_agent.py lines 197-216): on success the record is marked
`indexed` with `rag_uploaded = True`; on any exception it is marked `failed`
with the error message recorded. -/
def processedRecord (ex : AppRecord → Except String String) (r : AppRecord) :
    AppRecord :=
  match ex r with
  | Except.ok _ =>
    { r with resume_status := "indexed", rag_uploaded := BsonVal.boolVal true }
  | Except.error e => { r with resume_status := "failed", error := some e }

/-- `BATCH_SIZE` default (resume_agent.py line 45). -/
def BATCH_SIZE : Nat := 10

/-- One polled batch: `applications.find(query).limit(BATCH_SIZE)`
(resume_agent.py line 186), modelled as the first `BATCH_SIZE` eligible
records of the store. -/
def batchOf (store : List AppRecord) : List AppRecord :=
  (store.filter eligibleB).take BATCH_SIZE

/-- One iteration of the indexing loop over the document store: every record
of the polled batch is rewritten by `processedRecord` (the store update on
line 212 or 215), all other records are untouched.  `update_one` is keyed on
`_id`; this model updates every record carrying a batch `_id`, which agrees
with Mongo when `_id`s are unique. -/
def indexingStep (ex : AppRecord → Except String String)
    (store : List AppRecord) : List AppRecord :=
  store.map (fun r =>
    if r._id ∈ (batchOf store).map (fun b => b._id) then processedRecord ex r
    else r)

/-- The number of records the eligibility query would still return. -/
def countEligible (store : List AppRecord) : Nat :=
  (store.filter eligibleB).length

/-- The `while True` polling loop of `resume_indexing_agent`
(resume_agent.py lines 172-222) with an explicit iteration budget: `none`
means the budget ran out before an empty batch was observed, `some final`
means the loop hit `break` (line 189) with the store in state `final`.  The
termination theorem shows the budget `countEligible store + 1` always
suffices. -/
def indexingLoopAux (ex : AppRecord → Except String String) :
    Nat → List AppRecord → Option (List AppRecord)
  | 0, _ => none
  | n + 1, store =>
    if (batchOf store).isEmpty then some store
    else indexingLoopAux ex n (indexingStep ex store)

/-- `resume_indexing_agent`'s polling loop run with the sufficient budget. -/
def indexingLoop (ex : AppRecord → Except String String)
    (store : List AppRecord) : Option (List AppRecord) :=
  indexingLoopAux ex (countEligible store + 1) store

/-- Store/index effects of one batch of `resume_indexing_agent`, in program
order (resume_agent.py lines 193-220). -/
inductive IxEv
  | setIndexed (appId : String)
  | markFailed (appId : String) (err : String)
  | upsert (pointIds : List String)
deriving DecidableEq

/-- The per-record store updates of the batch loop (lines 193-216): a
successful record gets `resume_status = "indexed"`, `rag_uploaded = True`
(one `update_one`, line 212); a failed one gets `resume_status = "failed"`
(line 215). -/
def recordEvs (ex : AppRecord → Except String String)
    (batch : List AppRecord) : List IxEv :=
  batch.map (fun r =>
    match ex r with
    | Except.ok _ => IxEv.setIndexed r._id
    | Except.error e => IxEv.markFailed r._id e)

/-- The Qdrant point ids built for the successful records of the batch
(`mongo_id_to_uuid`, abstracted as `uuidOf`). -/
def pointIdsOf (uuidOf : String → String)
    (ex : AppRecord → Except String String) (batch : List AppRecord) :
    List String :=
  batch.filterMap (fun r =>
    match ex r with
    | Except.ok _ => some (uuidOf r._id)
    | Except.error _ => none)

/-- The full event trace of one batch (lines 193-220): per-record updates in
batch order, then — `if points:` — a single `qdrant.upsert` of all
successfully built points. -/
def batchTrace (uuidOf : String → String)
    (ex : AppRecord → Except String String) (batch : List AppRecord) :
    List IxEv :=
  recordEvs ex batch ++
    (if (pointIdsOf uuidOf ex batch).isEmpty then []
     else [IxEv.upsert (pointIdsOf uuidOf ex batch)])

/-- C2's ordering property as stated: no record of the batch has its
`ragUploaded` flag set before the batch upsert call is issued, i.e. every
`setIndexed` event comes strictly after the `upsert` event. -/
def flagOnlyAfterUpsert (tr : List IxEv) : Prop :=
  ∀ (i j : Nat) (a : String) (ids : List String),
    tr[i]? = some (IxEv.setIndexed a) →
    tr[j]? = some (IxEv.upsert ids) → j < i

/-- A `jobs` document as read by `jd_matching_agent`: `description` may be
absent (`job.get("description", "")`, line 273). -/
structure Job where
  _id : String
  description : Option String
deriving DecidableEq

/-- A Qdrant query result: payload fields may be absent, the score may be
null. -/
structure QPoint where
  application_id : Option String
  job_id : Option String
  score : Option ℚ
deriving DecidableEq

/-- Observable actions of the matching pipeline for one job. -/
inductive MAct
  | embed (text : String)
  | query (text : String)
  | write (applicationId : String) (status : String)
deriving DecidableEq

/-- Tag-stripping scanner: the flag says whether the scan is currently
inside a `<...>` tag.  A closing `>` emits the separator `" "`. -/
def stripTagsGo : Bool → List Char → List Char
  | _, [] => []
  | true, c :: r => if c = '>' then ' ' :: stripTagsGo false r else stripTagsGo true r
  | false, c :: r => if c = '<' then stripTagsGo true r else c :: stripTagsGo false r

/-- Tag removal as performed by `BeautifulSoup(...).get_text(separator=" ")`
on tag soup: each `<...>` tag is replaced by the separator `" "`, text
content is kept. -/
def stripTags (l : List Char) : List Char :=
  stripTagsGo false l

/-- Whitespace-collapsing scanner: the flag says whether the previous
character was part of a whitespace run (which has already emitted its single
space). -/
def collapseWsGo : Bool → List Char → List Char
  | _, [] => []
  | inRun, c :: r =>
    if pyWs c then
      if inRun then collapseWsGo true r else ' ' :: collapseWsGo true r
    else c :: collapseWsGo false r

/-- `re.sub(r"\s+", " ", text)`: collapse every whitespace run to one
space. -/
def collapseWs (l : List Char) : List Char :=
  collapseWsGo false l

/-- Python `str.strip()` on a code-point list. -/
def pyStrip (l : List Char) : List Char :=
  ((l.dropWhile pyWs).reverse.dropWhile pyWs).reverse

/-- `clean_html` (resume_agent.py lines 225-229): strip tags, collapse
whitespace runs to single spaces, strip the ends. -/
def clean_html (raw : String) : String :=
  String.mk (pyStrip (collapseWs (stripTags raw.data)))

/-- The per-job result filter (resume_agent.py line 283):
`[r for r in search_results if r.payload.get("job_id") == job_id]`. -/
def resultsFor (search : List QPoint) (job : Job) : List QPoint :=
  search.filter (fun r => r.job_id == some job._id)

/-- The non-null scores (line 288):
`[r.score for r in search_results if r.score is not None]`. -/
def scoresOf (search : List QPoint) (job : Job) : List ℚ :=
  (resultsFor search job).filterMap (fun r => r.score)

/-- Python's `max` over a non-empty list (`max(scores)`, line 293); `0` for
the empty list, which the agent never reaches (guarded by line 289). -/
def pyMax : List ℚ → ℚ
  | [] => 0
  | s :: ss => ss.foldl max s

/-- `cutoff = best_score * 0.63` (line 294). -/
def cutoffOf (search : List QPoint) (job : Job) : ℚ :=
  pyMax (scoresOf search job) * (63 / 100)

/-- The status writes the per-result loop (lines 298-306) would issue:
results lacking a truthy `application_id` or a non-null score are skipped
(line 302); otherwise the status is `"selected"` iff `score >= cutoff`. -/
def plannedWrites (search : List QPoint) (job : Job) :
    List (String × String) :=
  (resultsFor search job).filterMap (fun r =>
    match r.application_id, r.score with
    | some a, some sc =>
      if a == "" then none
      else some (a, if cutoffOf search job ≤ sc then "selected" else "rejected")
    | _, _ => none)

/-- The write loop under the job-level `try` (lines 281-309): writes are
issued in order; when a write raises (`wfail`), the exception is caught by
the `except` on line 308, ending the loop for this job.  Returns the writes
actually attempted. -/
def attemptWrites (wfail : String → Bool) :
    List (String × String) → List (String × String)
  | [] => []
  | w :: rest => w :: (if wfail w.1 then [] else attemptWrites wfail rest)

/-- Observable actions of `jd_matching_agent` for a single open job
(resume_agent.py lines 271-309): jobs whose raw description is empty or
whitespace-only are skipped (line 274); otherwise the cleaned description is
embedded, Qdrant is queried, and the selection writes run under the job-level
`try`. -/
def jobActions (wfail : String → Bool) (search : List QPoint) (job : Job) :
    List MAct :=
  if pyBlank (job.description.getD "") then []
  else
    MAct.embed (clean_html (job.description.getD "")) ::
    MAct.query (clean_html (job.description.getD "")) ::
    (if (scoresOf search job).isEmpty then []
     else (attemptWrites wfail (plannedWrites search job)).map
       (fun w => MAct.write w.1 w.2))

/-- The per-company job loop (lines 271-309): jobs are processed in order;
a failure inside one job's `try` does not abort the loop. -/
def matchingRun (wfail : String → Bool) (searchOf : Job → List QPoint) :
    List Job → List MAct
  | [] => []
  | j :: rest => jobActions wfail (searchOf j) j ++ matchingRun wfail searchOf rest

/-- The status writes among a list of actions. -/
def writesOf (acts : List MAct) : List (String × String) :=
  acts.filterMap (fun a =>
    match a with
    | MAct.write x st => some (x, st)
    | _ => none)

/-- Which collaborators got initialized (resume_agent.py lines 160-168 and
235-243 check `applications`, `qdrant`, `model`). -/
structure AgentCfg where
  mongoReady : Bool
  qdrantReady : Bool
  modelReady : Bool

/-- The control-flow skeleton of `resume_indexing_agent` (lines 157-222): a
missing collaborator aborts immediately (plain `return`, value `None`);
otherwise the loop body runs with no surrounding `try`, so an exception it
raises (`body = Except.error e`) propagates out of the entry point. -/
def resume_indexing_agent (cfg : AgentCfg) (body : Except String Unit) :
    Except String Unit :=
  if cfg.mongoReady = false then Except.ok ()
  else if cfg.qdrantReady = false then Except.ok ()
  else if cfg.modelReady = false then Except.ok ()
  else body

/-- The control-flow skeleton of `jd_matching_agent` (lines 232-311): same
guard structure; the company/job loops run with no function-level `try`
(only the per-job `try` on lines 281-309), so an exception raised outside it
— e.g. by `companies.find` on line 251 — propagates out. -/
def jd_matching_agent (cfg : AgentCfg) (body : Except String Unit) :
    Except String Unit :=
  if cfg.mongoReady = false then Except.ok ()
  else if cfg.qdrantReady = false then Except.ok ()
  else if cfg.modelReady = false then Except.ok ()
  else body

/-- The agent calls of `_run_agent_task` (server.py lines 33-37), sequential,
sharing one `try`. -/
def agentsCombined (mode : String) (idx mtc : Except String Unit) :
    Except String Unit :=
  match (if mode == "index" || mode == "both" then idx else Except.ok ()) with
  | Except.error e => Except.error e
  | Except.ok _ =>
    if mode == "matching" || mode == "both" then mtc else Except.ok ()

/-- `_run_agent_task` (server.py lines 30-47): any exception from the agents
is caught and recorded as `_last_error` (a string); nothing propagates. -/
def run_agent_task (mode : String) (idx mtc : Except String Unit) :
    Option String :=
  match agentsCombined mode idx mtc with
  | Except.ok _ => none
  | Except.error e => some e

/-- A Qdrant point as built by the indexing agent (resume_agent.py lines
200-210).  `resume_text` is the payload snippet, the text as a code-point
list (Python slicing is by code point). -/
structure VectorPointE where
  pid : String
  vector : List ℚ
  application_id : String
  job_id : String
  resume_text : List Char

/-- The `PointStruct` built on lines 200-210: id from `mongo_id_to_uuid`
(abstracted as `uuidOf`), vector from `model.encode(text)` on the full text,
payload `resume_text` from `text[:1500]`. -/
def buildPoint (uuidOf : String → String) (encode : List Char → List ℚ)
    (appId jobId : String) (text : List Char) : VectorPointE :=
  { pid := uuidOf appId
    vector := encode text
    application_id := appId
    job_id := jobId
    resume_text := text.take 1500 }

/-- Modelled from the spec: the spec's eligibility wording "`ragUploaded` is
falsy/absent" — a BSON value is falsy (in the Python/JS sense) when it is
`false`, the empty string, or zero; absent when missing.  Stated for
comparison with the query actually issued (`eligibleB`). -/
def bsonFalsyOrAbsent : BsonVal → Bool
  | BsonVal.missing => true
  | BsonVal.boolVal b => !b
  | BsonVal.strVal s => s == ""
  | BsonVal.numVal n => n == 0

/-- C1 as stated: every result of the job with a non-null score gets a status
write, `selected` iff its score clears the cutoff (writes assumed to
succeed). -/
def c1Claim : Prop :=
  ∀ (search : List QPoint) (job : Job),
    ∀ r ∈ resultsFor search job, ∀ s : ℚ, r.score = some s →
      ∃ a, MAct.write a
          (if cutoffOf search job ≤ s then "selected" else "rejected")
          ∈ jobActions (fun _ => false) search job

/-- C2 as stated: in every batch trace, the `ragUploaded` flag updates happen
only after the single batch upsert is issued. -/
def c2Claim : Prop :=
  ∀ (uuidOf : String → String) (ex : AppRecord → Except String String)
    (batch : List AppRecord), flagOnlyAfterUpsert (batchTrace uuidOf ex batch)

/-- C5 as stated: the query fetches a record iff status is open, the
`ragUploaded` field is falsy or absent, and the resume reference is present
and URL-shaped. -/
def c5Claim : Prop :=
  ∀ r : AppRecord,
    eligibleB r = true ↔
      (r.resume_status = "open" ∧ bsonFalsyOrAbsent r.rag_uploaded = true ∧
        ∃ u, r.resume = some u ∧ "http".data.isPrefixOf u.data = true)

/-- C6 as stated: a job whose description is empty after structural-markup
stripping is skipped entirely (no embed, no query, no write). -/
def c6Claim : Prop :=
  ∀ (wfail : String → Bool) (search : List QPoint) (job : Job),
    pyBlank (clean_html (job.description.getD "")) = true →
    jobActions wfail search job = []

/-- C7 as stated: the per-job write loop attempts every planned write
regardless of individual write failures. -/
def c7Claim : Prop :=
  ∀ (wfail : String → Bool) (search : List QPoint) (job : Job),
    writesOf (jobActions wfail search job) =
      writesOf (jobActions (fun _ => false) search job)

/-- C8 as stated (the refutable core): no exception raised inside a pipeline
escapes uncaught through the entry point. -/
def c8Claim : Prop :=
  ∀ (cfg : AgentCfg) (body : Except String Unit),
    ∃ u, resume_indexing_agent cfg body = Except.ok u

/-- The job used in the C1 cutoff example. -/
def c1Job : Job := { _id := "J1", description := some "Build APIs" }

/-- The search results of the C1 cutoff example: scores
`[0.90, 0.70, 0.60, 0.30]`. -/
def c1Search : List QPoint :=
  [ { application_id := some "a1", job_id := some "J1", score := some (9 / 10) },
    { application_id := some "a2", job_id := some "J1", score := some (7 / 10) },
    { application_id := some "a3", job_id := some "J1", score := some (6 / 10) },
    { application_id := some "a4", job_id := some "J1", score := some (3 / 10) } ]

/-- A scored result with no `application_id` in its payload. -/
def c1OrphanSearch : List QPoint :=
  [ { application_id := none, job_id := some "J1", score := some (9 / 10) } ]

/-- The record showing that the query's `rag_uploaded` filter is not
"falsy or absent": the string `"False"` is truthy. -/
def c5CexRecord : AppRecord :=
  { _id := "r1"
    resume := some "https://b.s3.amazonaws.com/cv.pdf"
    resume_status := "open"
    rag_uploaded := BsonVal.strVal "False"
    error := none }

/-- A one-record batch whose extraction succeeds. -/
def c2CexBatch : List AppRecord :=
  [ { _id := "A1"
      resume := some "https://b.s3.amazonaws.com/cv.pdf"
      resume_status := "open"
      rag_uploaded := BsonVal.missing
      error := none } ]

/-- Bridge between the boolean `isPrefixOf` check and the `<+:` relation. -/
theorem isPrefixOf_eq_true_iff {l₁ l₂ : List Char} :
    l₁.isPrefixOf l₂ = true ↔ l₁ <+: l₂ :=
  List.isPrefixOf_iff_prefix

theorem pySplit_ne_nil (sep l : List Char) : pySplit sep l ≠ [] := by
  rw [pySplit.eq_def]
  split
  · simp
  · split
    · simp
    · split
      · simp
      · split <;> simp

example (sep : List Char) (hsep : ¬ sep.length = 0) (c : Char) (rest : List Char)
    (hpre : sep.isPrefixOf (c :: rest) = false) :
    pySplit sep (c :: rest) =
      (match pySplit sep rest with
       | [] => [[c]]
       | p :: ps => (c :: p) :: ps) := by
  rw [pySplit.eq_def]
  simp [hsep, hpre]

example (sep : List Char) (hsep : ¬ sep.length = 0) (c : Char) (rest : List Char)
    (hpre : sep.isPrefixOf (c :: rest) = true) :
    pySplit sep (c :: rest) = [] :: pySplit sep (List.drop sep.length (c :: rest)) := by
  rw [pySplit.eq_def]
  simp [hsep, hpre]

example (sep : List Char) (hsep : ¬ sep.length = 0) : pySplit sep [] = [[]] := by
  rw [pySplit.eq_def]
  simp [hsep]

theorem pySplit_eq_single (sep : List Char) (hsep : sep ≠ []) :
    ∀ l, ¬ sep <:+: l → pySplit sep l = [l] := by
  have hlen : ¬ sep.length = 0 := by
    simpa using hsep
  intro l
  induction l with
  | nil =>
    intro _
    rw [pySplit.eq_def]
    simp [hlen]
  | cons c rest ih =>
    intro h
    have hpre : sep.isPrefixOf (c :: rest) = false := by
      rw [Bool.eq_false_iff]
      intro hp
      exact h (isPrefixOf_eq_true_iff.mp hp).isInfix
    have hrest : ¬ sep <:+: rest := fun hr => h (List.infix_cons hr)
    rw [pySplit.eq_def]
    simp only [hlen, hpre, ih hrest]
    simp

theorem pySplit_last_spec (sep : List Char) (hsep : sep ≠ []) :
    ∀ (n : Nat) (l : List Char), l.length ≤ n →
      (¬ sep <:+: l → (pySplit sep l).getLastD [] = l)
      ∧ (sep <:+: l → 2 ≤ (pySplit sep l).length
          ∧ ∃ a, l = a ++ (sep ++ (pySplit sep l).getLastD [])
              ∧ ¬ sep <:+: (pySplit sep l).getLastD []) := by
  have hlen : ¬ sep.length = 0 := by simpa using hsep
  intro n
  induction n with
  | zero =>
    intro l hl
    have : l = [] := by
      cases l with
      | nil => rfl
      | cons a t => simp at hl
    subst this
    constructor
    · intro _
      rw [pySplit.eq_def]
      simp [hlen]
    · intro hinf
      exact absurd (List.infix_nil.mp hinf) hsep
  | succ n ih =>
    intro l hl
    cases l with
    | nil =>
      constructor
      · intro _
        rw [pySplit.eq_def]
        simp [hlen]
      · intro hinf
        exact absurd (List.infix_nil.mp hinf) hsep
    | cons c rest =>
      by_cases hpre : sep.isPrefixOf (c :: rest) = true
      · -- prefix branch
        have hp : sep <+: c :: rest := isPrefixOf_eq_true_iff.mp hpre
        obtain ⟨t, ht⟩ := hp
        have hdrop : List.drop sep.length (c :: rest) = t := by
          rw [← ht, List.drop_left]
        have hlt : t.length ≤ n := by
          have h1 : (c :: rest).length = sep.length + t.length := by
            rw [← ht, List.length_append]
          have h2 : 1 ≤ sep.length := by
            cases sep with
            | nil => exact absurd rfl hsep
            | cons x xs => simp
          simp only [List.length_cons] at hl h1
          omega
        have hunf : pySplit sep (c :: rest) = [] :: pySplit sep t := by
          rw [pySplit.eq_def]
          simp [hlen, hpre, hdrop]
        have hne := pySplit_ne_nil sep t
        have hlast : (pySplit sep (c :: rest)).getLastD [] = (pySplit sep t).getLastD [] := by
          rw [hunf]
          cases hps : pySplit sep t with
          | nil => exact absurd hps hne
          | cons p ps => simp [List.getLastD_cons]
        have hinfl : sep <:+: c :: rest := ⟨[], t, by simpa using ht⟩
        constructor
        · intro h
          exact absurd hinfl h
        · intro _
          refine ⟨?_, ?_⟩
          · rw [hunf]
            cases hps : pySplit sep t with
            | nil => exact absurd hps hne
            | cons p ps => simp
          · rw [hlast]
            by_cases hit : sep <:+: t
            · obtain ⟨_, ⟨a, hteq, hnr⟩⟩ := (ih t hlt).2 hit
              refine ⟨sep ++ a, ?_, hnr⟩
              conv_lhs => rw [← ht, hteq]
              simp [List.append_assoc]
            · have hr := (ih t hlt).1 hit
              rw [hr]
              exact ⟨[], by simp [← ht], hit⟩
      · -- non-prefix branch
        have hpre' : sep.isPrefixOf (c :: rest) = false := by
          rw [Bool.eq_false_iff]
          exact hpre
        have hnp : ¬ sep <+: c :: rest := fun hp =>
          hpre (isPrefixOf_eq_true_iff.mpr hp)
        have hrl : rest.length ≤ n := by
          simp only [List.length_cons] at hl
          omega
        have hne := pySplit_ne_nil sep rest
        obtain ⟨p, ps, hps⟩ : ∃ p ps, pySplit sep rest = p :: ps := by
          cases hx : pySplit sep rest with
          | nil => exact absurd hx hne
          | cons p ps => exact ⟨p, ps, rfl⟩
        have hunf : pySplit sep (c :: rest) = (c :: p) :: ps := by
          rw [pySplit.eq_def]
          simp [hlen, hpre', hps]
        constructor
        · intro h
          have hrest : ¬ sep <:+: rest := fun hr => h (List.infix_cons hr)
          have hsing := pySplit_eq_single sep hsep rest hrest
          rw [hsing] at hps
          injection hps with h1 h2
          rw [hunf, ← h1, ← h2]
          simp
        · intro hinf
          have hrest : sep <:+: rest := by
            rcases List.infix_cons_iff.mp hinf with hp | hr
            · exact absurd hp hnp
            · exact hr
          obtain ⟨hlen2, a, hreq, hnr⟩ := (ih rest hrl).2 hrest
          have hpsne : ps ≠ [] := by
            intro hps0
            rw [hps, hps0] at hlen2
            simp at hlen2
          have hlast : (pySplit sep (c :: rest)).getLastD [] = (pySplit sep rest).getLastD [] := by
            rw [hunf, hps]
            cases hps2 : ps with
            | nil => exact absurd hps2 hpsne
            | cons q qs => simp [List.getLastD_cons]
          refine ⟨?_, ?_⟩
          · rw [hunf]
            cases hps2 : ps with
            | nil => exact absurd hps2 hpsne
            | cons q qs => simp [hps2]
          · rw [hlast]
            refine ⟨c :: a, ?_, hnr⟩
            conv_lhs => rw [hreq]
            simp

/-- C10: `extract_s3_key` returns the substring after the last occurrence of
the marker `".amazonaws.com/"`; with no marker present it returns the whole
input unchanged, hence never fails and never returns an empty key for a
non-empty marker-free input. -/
theorem c10_extract_s3_key_spec (url : List Char) :
    (¬ s3Marker <:+: url →
      extract_s3_key url = url ∧ (url ≠ [] → extract_s3_key url ≠ []))
    ∧ (s3Marker <:+: url →
      ∃ a, url = a ++ (s3Marker ++ extract_s3_key url)
        ∧ ¬ s3Marker <:+: extract_s3_key url) := by
  have hm : (s3Marker : List Char) ≠ [] := by decide
  have h := pySplit_last_spec s3Marker hm url.length url le_rfl
  constructor
  · intro hni
    have h1 : extract_s3_key url = url := h.1 hni
    refine ⟨h1, ?_⟩
    intro hne
    rw [h1]
    exact hne
  · intro hi
    obtain ⟨-, a, ha, hnr⟩ := h.2 hi
    exact ⟨a, ha, hnr⟩

/-- Witness for C10 at two concrete URLs, one with the marker and one
without. -/
theorem c10_witness :
    extract_s3_key "no-marker-here".data = "no-marker-here".data
    ∧ ∃ a, "https://b.s3.amazonaws.com/resumes/cv.pdf".data =
        a ++ (s3Marker ++
          extract_s3_key "https://b.s3.amazonaws.com/resumes/cv.pdf".data)
        ∧ ¬ s3Marker <:+:
            extract_s3_key "https://b.s3.amazonaws.com/resumes/cv.pdf".data :=
  ⟨((c10_extract_s3_key_spec "no-marker-here".data).1 (by decide)).1,
   (c10_extract_s3_key_spec "https://b.s3.amazonaws.com/resumes/cv.pdf".data).2
     (by decide)⟩

/-- C9: the Qdrant point's payload `resume_text` is the (at most)
1500-code-point prefix of the extracted text, while the embedding vector is
computed over the full, untruncated text. -/
theorem c9_payload_truncation (uuidOf : String → String)
    (encode : List Char → List ℚ) (appId jobId : String) (text : List Char) :
    (buildPoint uuidOf encode appId jobId text).vector = encode text
    ∧ (buildPoint uuidOf encode appId jobId text).resume_text = text.take 1500
    ∧ (buildPoint uuidOf encode appId jobId text).resume_text.length ≤ 1500
    ∧ ∃ rest, (buildPoint uuidOf encode appId jobId text).resume_text ++ rest = text := by
  refine ⟨rfl, rfl, ?_, ⟨text.drop 1500, List.take_append_drop 1500 text⟩⟩
  simp only [buildPoint, List.length_take]
  omega

/-- C8 fails as stated: with all collaborators configured, an exception
raised by the loop body propagates out of `resume_indexing_agent` uncaught
(the function has no `try` around its loop), so the entry point does not
always return a success indicator. -/
theorem c8_counterexample : ¬ c8Claim := by
  intro h
  obtain ⟨u, hu⟩ := h ⟨true, true, true⟩ (Except.error "store unavailable")
  simp [resume_indexing_agent] at hu

/-- C8 (amended): the entry points return no payload; when a collaborator is
unconfigured they abort immediately (returning plain `None`), otherwise an
exception from the pipeline body escapes them and is caught only by the
trigger boundary's background task (`_run_agent_task`), which never
propagates it and records it as the human-readable `_last_error` string. -/
theorem c8_error_surfacing (mode : String) (cfg : AgentCfg)
    (idxBody mtcBody : Except String Unit) :
    (cfg.mongoReady = false →
      resume_indexing_agent cfg idxBody = Except.ok ()
      ∧ jd_matching_agent cfg mtcBody = Except.ok ())
    ∧ (cfg.mongoReady = true → cfg.qdrantReady = true → cfg.modelReady = true →
      resume_indexing_agent cfg idxBody = idxBody
      ∧ jd_matching_agent cfg mtcBody = mtcBody)
    ∧ (∀ e, agentsCombined mode (resume_indexing_agent cfg idxBody)
          (jd_matching_agent cfg mtcBody) = Except.error e →
        run_agent_task mode (resume_indexing_agent cfg idxBody)
          (jd_matching_agent cfg mtcBody) = some e)
    ∧ (agentsCombined mode (resume_indexing_agent cfg idxBody)
          (jd_matching_agent cfg mtcBody) = Except.ok () →
        run_agent_task mode (resume_indexing_agent cfg idxBody)
          (jd_matching_agent cfg mtcBody) = none) := by
  refine ⟨?_, ?_, ?_, ?_⟩
  · intro h
    constructor <;> simp [resume_indexing_agent, jd_matching_agent, h]
  · intro h1 h2 h3
    constructor <;> simp [resume_indexing_agent, jd_matching_agent, h1, h2, h3]
  · intro e h
    simp [run_agent_task, h]
  · intro h
    simp [run_agent_task, h]

/-- Witness for C8 (amended): a store failure raised inside the indexing loop
escapes the entry point and is recorded by the trigger boundary as the error
string. -/
theorem c8_witness :
    run_agent_task "index"
      (resume_indexing_agent ⟨true, true, true⟩ (Except.error "store down"))
      (jd_matching_agent ⟨true, true, true⟩ (Except.ok ())) = some "store down" :=
  (c8_error_surfacing "index" ⟨true, true, true⟩ (Except.error "store down")
    (Except.ok ())).2.2.1 "store down" rfl

/-- C5 fails as stated: the record `c5CexRecord` carries
`rag_uploaded = "False"`, a truthy (non-falsy) string, yet the query fetches
it, because the Mongo filter explicitly matches the string `"False"`. -/
theorem c5_counterexample :
    ¬ (∀ r : AppRecord,
      eligibleB r = true ↔
        (r.resume_status = "open" ∧ bsonFalsyOrAbsent r.rag_uploaded = true ∧
          ∃ u, r.resume = some u ∧ "http".data.isPrefixOf u.data = true)) := by
  intro h
  have h2 := (h c5CexRecord).1 (by decide)
  exact absurd h2.2.1 (by decide)

/-- C5 (amended): a record is fetched by the indexing query iff its status is
`"open"`, its `rag_uploaded` field is missing, the boolean `false`, or the
literal string `"False"`, and its resume reference is present and starts with
`"http"`. -/
theorem c5_eligibility_query (r : AppRecord) :
    eligibleB r = true ↔
      (r.resume_status = "open"
       ∧ (r.rag_uploaded = BsonVal.missing
          ∨ r.rag_uploaded = BsonVal.boolVal false
          ∨ r.rag_uploaded = BsonVal.strVal "False")
       ∧ ∃ u, r.resume = some u ∧ "http".data.isPrefixOf u.data = true) := by
  obtain ⟨i, resume, status, rag, err⟩ := r
  cases resume with
  | none => simp [eligibleB]
  | some u =>
    cases rag with
    | missing => simp [eligibleB, and_comm]
    | boolVal b => cases b <;> simp [eligibleB, and_comm]
    | strVal s =>
      simp only [eligibleB, Bool.and_eq_true, beq_iff_eq, BsonVal.strVal.injEq]
      constructor
      · rintro ⟨⟨h1, h2⟩, h3⟩
        exact ⟨h2, Or.inr (Or.inr (by simp [h3])), u, rfl, h1⟩
      · rintro ⟨h2, h3, v, hv, h1⟩
        cases hv
        refine ⟨⟨h1, h2⟩, ?_⟩
        rcases h3 with h | h | h <;> simp_all
    | numVal n => simp [eligibleB]

/-- Witness for C5 (amended) on the concrete fetched record. -/
theorem c5_witness : eligibleB c5CexRecord = true :=
  (c5_eligibility_query c5CexRecord).2
    ⟨rfl, Or.inr (Or.inr rfl),
      "https://b.s3.amazonaws.com/cv.pdf", rfl, by decide⟩

/-- C6 fails as stated: the job with description `"<p></p>"` is empty after
markup stripping (`clean_html` gives `""`), yet it is not skipped — the skip
test looks at the raw description, which is non-blank, so the pipeline goes
on to embed and query for this job. -/
theorem c6_counterexample : ¬ c6Claim := by
  intro h
  have h2 := h (fun _ => false) []
    { _id := "J", description := some "<p></p>" } (by decide)
  have h3 : (jobActions (fun _ => false) []
      { _id := "J", description := some "<p></p>" }).isEmpty = false := by decide
  rw [h2] at h3
  simp at h3

/-- C6 (amended): the skip test uses the raw description, before markup
stripping: every job whose raw description is empty or whitespace-only is
skipped entirely (no embed, no query, no status write). -/
theorem c6_raw_blank_skip (wfail : String → Bool) (search : List QPoint)
    (job : Job) (h : pyBlank (job.description.getD "") = true) :
    jobActions wfail search job = [] := by
  simp [jobActions, h]

/-- Witness for C6 (amended): a job with a whitespace-only description is
skipped. -/
theorem c6_witness :
    jobActions (fun _ => false) c1Search { _id := "J2", description := some "   " } = [] :=
  c6_raw_blank_skip (fun _ => false) c1Search
    { _id := "J2", description := some "   " } (by decide)

theorem attemptWrites_nofail (ws : List (String × String)) :
    attemptWrites (fun _ => false) ws = ws := by
  induction ws with
  | nil => rfl
  | cons w rest ih => simp [attemptWrites, ih]

theorem writesOf_jobActions (wfail : String → Bool) (search : List QPoint)
    (job : Job) (h : pyBlank (job.description.getD "") = false) :
    writesOf (jobActions wfail search job) =
      (if (scoresOf search job).isEmpty then []
       else attemptWrites wfail (plannedWrites search job)) := by
  by_cases hs : (scoresOf search job).isEmpty = true
  · simp [jobActions, h, hs, writesOf]
  · have hs' : (scoresOf search job).isEmpty = false := by
      rw [Bool.eq_false_iff]
      exact hs
    simp only [jobActions, h, hs', Bool.false_eq_true, if_false, writesOf,
      List.filterMap_cons]
    rw [List.filterMap_map]
    have : ∀ w : String × String,
        ((fun a => match a with
          | MAct.write x st => some (x, st)
          | _ => none) ∘ fun w => MAct.write w.1 w.2) w = some w := by
      intro w
      rfl
    rw [List.filterMap_congr (fun w _ => this w)]
    induction attemptWrites wfail (plannedWrites search job) with
    | nil => rfl
    | cons x xs ih => simp [List.filterMap_cons, ih]

theorem foldl_max_mem (s : ℚ) (ss : List ℚ) : ss.foldl max s ∈ s :: ss := by
  induction ss generalizing s with
  | nil => simp [List.foldl]
  | cons a t ih =>
    rw [List.foldl_cons]
    rcases max_choice s a with hc | hc <;> rw [hc]
    · rcases List.mem_cons.mp (ih s) with h1 | h1 <;> simp [h1]
    · rcases List.mem_cons.mp (ih a) with h1 | h1 <;> simp [h1]

theorem foldl_max_le (s : ℚ) (ss : List ℚ) :
    s ≤ ss.foldl max s ∧ ∀ x ∈ ss, x ≤ ss.foldl max s := by
  induction ss generalizing s with
  | nil => simp
  | cons a t ih =>
    obtain ⟨h1, h2⟩ := ih (max s a)
    refine ⟨le_trans (le_max_left s a) h1, ?_⟩
    intro x hx
    rcases List.mem_cons.mp hx with h | h
    · rw [h]
      exact le_trans (le_max_right s a) h1
    · exact h2 x h

theorem c1_cutoff_value : cutoffOf c1Search c1Job = 567 / 1000 := by
  have h : scoresOf c1Search c1Job = [9/10, 7/10, 6/10, 3/10] := rfl
  rw [cutoffOf, h]
  show (max (max (max (9/10 : ℚ) (7/10)) (6/10)) (3/10)) * (63/100) = 567/1000
  rw [max_def, max_def, max_def]
  norm_num

theorem c1_planned_value :
    plannedWrites c1Search c1Job =
      [("a1", "selected"), ("a2", "selected"), ("a3", "selected"),
       ("a4", "rejected")] := by
  have h : resultsFor c1Search c1Job = c1Search := rfl
  simp only [plannedWrites, h]
  rw [c1_cutoff_value]
  simp only [c1Search, List.filterMap_cons, List.filterMap_nil]
  norm_num
  decide

/-- C1 fails as literally stated: a result carrying a non-null score `0.90`
but no `application_id` in its payload is silently skipped by the write loop
(line 302), so no status write marks it at all. -/
theorem c1_counterexample : ¬ c1Claim := by
  intro h
  obtain ⟨a, ha⟩ := h c1OrphanSearch c1Job
    ⟨none, some "J1", some (9/10)⟩
    (List.mem_filter.mpr ⟨List.mem_singleton_self _, rfl⟩) (9/10) rfl
  have hacts : jobActions (fun _ => false) c1OrphanSearch c1Job =
      [MAct.embed (clean_html "Build APIs"),
       MAct.query (clean_html "Build APIs")] := rfl
  rw [hacts] at ha
  simp at ha

/-- C1 (amended): for every job with at least one scored result, the cutoff
is 0.63 times the maximum non-null score, and every result with a non-null
score AND a truthy `application_id` in its payload is written `selected` if
its score is at least the cutoff (ties select) and `rejected` otherwise; in
particular for scores `[0.90, 0.70, 0.60, 0.30]` the cutoff is `0.567` and
the written statuses are `[selected, selected, selected, rejected]`. -/
theorem c1_cutoff_selection (search : List QPoint) (job : Job)
    (hdesc : pyBlank (job.description.getD "") = false)
    (hscores : (scoresOf search job).isEmpty = false) :
    (cutoffOf search job = pyMax (scoresOf search job) * (63 / 100)
      ∧ pyMax (scoresOf search job) ∈ scoresOf search job
      ∧ ∀ x ∈ scoresOf search job, x ≤ pyMax (scoresOf search job))
    ∧ (∀ r ∈ resultsFor search job, ∀ a s, r.application_id = some a →
        (a == "") = false → r.score = some s →
        MAct.write a (if cutoffOf search job ≤ s then "selected" else "rejected")
          ∈ jobActions (fun _ => false) search job)
    ∧ (cutoffOf c1Search c1Job = 567 / 1000
      ∧ writesOf (jobActions (fun _ => false) c1Search c1Job) =
          [("a1", "selected"), ("a2", "selected"), ("a3", "selected"),
           ("a4", "rejected")]) := by
  refine ⟨?_, ?_, c1_cutoff_value, ?_⟩
  · obtain ⟨s, ss, hss⟩ : ∃ s ss, scoresOf search job = s :: ss := by
      cases hx : scoresOf search job with
      | nil => rw [hx] at hscores; simp at hscores
      | cons s ss => exact ⟨s, ss, rfl⟩
    refine ⟨rfl, ?_, ?_⟩
    · rw [hss]
      show ss.foldl max s ∈ s :: ss
      exact foldl_max_mem s ss
    · rw [hss]
      intro x hx
      show x ≤ ss.foldl max s
      rcases List.mem_cons.mp hx with h | h
      · subst h
        exact (foldl_max_le x ss).1
      · exact (foldl_max_le s ss).2 x h
  · intro r hr a s ha hane hs
    simp only [jobActions, hdesc, Bool.false_eq_true, if_false, hscores,
      List.mem_cons]
    refine Or.inr (Or.inr ?_)
    rw [attemptWrites_nofail]
    exact List.mem_map.mpr ⟨(a, if cutoffOf search job ≤ s then "selected" else "rejected"),
      List.mem_filterMap.mpr ⟨r, hr, by rw [ha, hs]; simp [hane]⟩, rfl⟩
  · rw [writesOf_jobActions _ _ _ (by decide)]
    have hne : (scoresOf c1Search c1Job).isEmpty = false := by decide
    rw [hne]
    simp only [Bool.false_eq_true, if_false]
    rw [attemptWrites_nofail, c1_planned_value]

/-- Witness for C1 (amended): the concrete cutoff example. -/
theorem c1_witness :
    cutoffOf c1Search c1Job = 567 / 1000
    ∧ writesOf (jobActions (fun _ => false) c1Search c1Job) =
        [("a1", "selected"), ("a2", "selected"), ("a3", "selected"),
         ("a4", "rejected")] :=
  (c1_cutoff_selection c1Search c1Job (by decide) (by decide)).2.2

/-- C7 fails as stated: with a write-failure oracle that fails on `"a1"`,
only the first write of the job is attempted — the exception is caught by the
job-level `except` (line 308), which sits outside the write loop, so the
remaining writes of the same job are skipped. -/
theorem c7_counterexample : ¬ c7Claim := by
  intro h
  have h2 := h (fun a => a == "a1") c1Search c1Job
  rw [writesOf_jobActions _ _ _ (by decide),
    writesOf_jobActions _ _ _ (by decide)] at h2
  have hne : (scoresOf c1Search c1Job).isEmpty = false := by decide
  rw [hne] at h2
  simp only [Bool.false_eq_true, if_false] at h2
  rw [c1_planned_value, attemptWrites_nofail] at h2
  exact absurd h2 (by decide)

/-- C7 (corrected): a failing status write ends that job's write loop (the
writes after it are not attempted), because the exception handler wraps the
whole loop; the per-company job loop itself continues with the next job. -/
theorem c7_failing_write_aborts_job :
    (∀ (wfail : String → Bool) (pre : List (String × String))
        (w : String × String) (post : List (String × String)),
      (∀ x ∈ pre, wfail x.1 = false) → wfail w.1 = true →
      attemptWrites wfail (pre ++ w :: post) = pre ++ [w])
    ∧ (∀ (wfail : String → Bool) (searchOf : Job → List QPoint)
        (j : Job) (rest : List Job),
      matchingRun wfail searchOf (j :: rest) =
        jobActions wfail (searchOf j) j ++ matchingRun wfail searchOf rest) := by
  constructor
  · intro wfail pre w post hpre hw
    induction pre with
    | nil => simp [attemptWrites, hw]
    | cons x xs ih =>
      have hx := hpre x (List.mem_cons_self x xs)
      have hih := ih (fun y hy => hpre y (List.mem_cons_of_mem x hy))
      simp only [List.cons_append, attemptWrites, hx, Bool.false_eq_true,
        if_false, List.append_eq]
      rw [hih]
  · intro _ _ _ _
    rfl

/-- Witness for C7 (corrected): the write for `"b"` fails, the later write
for `"c"` is never attempted. -/
theorem c7_witness :
    attemptWrites (fun a => a == "b")
      ([("a", "selected")] ++ ("b", "rejected") :: [("c", "selected")]) =
      [("a", "selected")] ++ [("b", "rejected")] :=
  c7_failing_write_aborts_job.1 (fun a => a == "b") [("a", "selected")]
    ("b", "rejected") [("c", "selected")] (by decide) (by decide)

/-- C3: the extractor raises its terminal failure `"No text extracted"` iff
the accumulated text is empty or whitespace-only after all fallbacks; that is
its only failure mode (structured-extraction errors never propagate — the
`raised` case still produces a result from the OCR fallback); an image key
goes straight to OCR on the decoded image; the rasterize-and-OCR fallback is
appended both when the aggregated text layer is blank and when structured
extraction raises. -/
theorem c3_extraction_contract (url : List Char) (imageOcr : String)
    (sres : StructRes) (ocrPages : List String) :
    (extract_text_from_s3 url imageOcr sres ocrPages = Except.error "No text extracted"
      ↔ pyBlank (accumText (extract_s3_key url) imageOcr sres ocrPages) = true)
    ∧ ((∃ t, extract_text_from_s3 url imageOcr sres ocrPages = Except.ok t)
        ∨ extract_text_from_s3 url imageOcr sres ocrPages
            = Except.error "No text extracted")
    ∧ (isImageKey (extract_s3_key url) = true →
        extract_text_from_s3 url imageOcr sres ocrPages =
          (if pyBlank imageOcr then Except.error "No text extracted"
           else Except.ok imageOcr))
    ∧ (∀ pages, isImageKey (extract_s3_key url) = false →
        sres = StructRes.ok pages → pyBlank (joinPages pages) = true →
        accumText (extract_s3_key url) imageOcr sres ocrPages =
          joinPages pages ++ joinPages ocrPages)
    ∧ (∀ pagesSoFar, isImageKey (extract_s3_key url) = false →
        sres = StructRes.raised pagesSoFar →
        accumText (extract_s3_key url) imageOcr sres ocrPages =
          joinPages pagesSoFar ++ joinPages ocrPages) := by
  refine ⟨?_, ?_, ?_, ?_, ?_⟩
  · rw [extract_text_from_s3]
    by_cases hb : pyBlank (accumText (extract_s3_key url) imageOcr sres ocrPages) = true
    · simp [hb]
    · simp [hb]
  · rw [extract_text_from_s3]
    by_cases hb : pyBlank (accumText (extract_s3_key url) imageOcr sres ocrPages) = true
    · right
      simp [hb]
    · left
      refine ⟨accumText (extract_s3_key url) imageOcr sres ocrPages, ?_⟩
      simp only [Bool.not_eq_true] at hb
      simp [hb]
  · intro himg
    rw [extract_text_from_s3]
    have ha : accumText (extract_s3_key url) imageOcr sres ocrPages = imageOcr := by
      rw [accumText.eq_def, if_pos himg]
    rw [ha]
  · intro pages himg hs hblank
    rw [hs, accumText.eq_def, if_neg (by simp [himg])]
    simp [hblank]
  · intro pagesSoFar himg hs
    rw [hs, accumText.eq_def, if_neg (by simp [himg])]

/-- Witness for C3: an image key is OCR'd directly and succeeds on non-blank
OCR output; a PDF whose structured extraction raises after one page falls
back to page OCR and the error does not propagate. -/
theorem c3_witness :
    extract_text_from_s3 "scan.JPG".data "John Doe"
        (StructRes.ok []) [] = Except.ok "John Doe"
    ∧ accumText (extract_s3_key "cv.pdf".data) ""
        (StructRes.raised ["partia"]) ["ocr text"] =
        joinPages ["partia"] ++ joinPages ["ocr text"] := by
  have hk1 : extract_s3_key "scan.JPG".data = "scan.JPG".data := by
    rw [extract_s3_key, pySplit_eq_single s3Marker (by decide) _ (by decide)]
    rfl
  have hk2 : extract_s3_key "cv.pdf".data = "cv.pdf".data := by
    rw [extract_s3_key, pySplit_eq_single s3Marker (by decide) _ (by decide)]
    rfl
  constructor
  · have h := (c3_extraction_contract "scan.JPG".data
      "John Doe" (StructRes.ok []) []).2.2.1 (by rw [hk1]; decide)
    rw [h]
    rfl
  · exact (c3_extraction_contract "cv.pdf".data ""
      (StructRes.raised ["partia"]) ["ocr text"]).2.2.2.2 ["partia"]
      (by rw [hk2]; decide) rfl

/-- C2 fails as stated: in a one-record batch whose extraction succeeds, the
trace is `[setIndexed "A1", upsert ["A1-u"]]` — the record's
`rag_uploaded = True` update (part of the `setIndexed` write, line 212)
happens strictly before the batch upsert (line 219), not after it. -/
theorem c2_counterexample : ¬ c2Claim := by
  intro h
  have h2 := h (fun s => s ++ "-u") (fun _ => Except.ok "text") c2CexBatch
    0 1 "A1" ["A1-u"] (by decide) (by decide)
  omega

/-- C2 (corrected): each successful record's `ragUploaded` flag is set during
batch processing, strictly BEFORE the upsert; the upsert itself is still a
single call, issued once after the whole batch has been processed, carrying
exactly the successfully built points. -/
theorem c2_flag_then_upsert (uuidOf : String → String)
    (ex : AppRecord → Except String String) (batch : List AppRecord) :
    (∀ ids, IxEv.upsert ids ∈ batchTrace uuidOf ex batch →
      ids = pointIdsOf uuidOf ex batch)
    ∧ ((pointIdsOf uuidOf ex batch).isEmpty = false →
      (batchTrace uuidOf ex batch).getLast? =
        some (IxEv.upsert (pointIdsOf uuidOf ex batch)))
    ∧ (∀ r ∈ batch, ∀ t, ex r = Except.ok t →
      ∃ i j : Nat, i < j
        ∧ (batchTrace uuidOf ex batch)[i]? = some (IxEv.setIndexed r._id)
        ∧ (batchTrace uuidOf ex batch)[j]? =
            some (IxEv.upsert (pointIdsOf uuidOf ex batch))) := by
  refine ⟨?_, ?_, ?_⟩
  · intro ids h
    rw [batchTrace] at h
    rcases List.mem_append.mp h with h | h
    · exfalso
      rw [recordEvs] at h
      obtain ⟨r, hr, heq⟩ := List.mem_map.mp h
      cases hex : ex r <;> rw [hex] at heq <;> simp at heq
    · by_cases hp : (pointIdsOf uuidOf ex batch).isEmpty = true
      · rw [if_pos hp] at h
        simp at h
      · rw [if_neg hp] at h
        have h3 := List.mem_singleton.mp h
        simpa using h3
  · intro hne
    have htr : batchTrace uuidOf ex batch =
        recordEvs ex batch ++ [IxEv.upsert (pointIdsOf uuidOf ex batch)] := by
      simp only [batchTrace, hne, Bool.false_eq_true, if_false]
    rw [htr]
    exact List.getLast?_concat _
  · intro r hr t hex
    have hmem : IxEv.setIndexed r._id ∈ recordEvs ex batch := by
      rw [recordEvs]
      exact List.mem_map.mpr ⟨r, hr, by rw [hex]⟩
    obtain ⟨i, hi, hgi⟩ := List.getElem_of_mem hmem
    have hpts : (pointIdsOf uuidOf ex batch).isEmpty = false := by
      have hin : uuidOf r._id ∈ pointIdsOf uuidOf ex batch := by
        rw [pointIdsOf]
        exact List.mem_filterMap.mpr ⟨r, hr, by rw [hex]⟩
      cases hp : pointIdsOf uuidOf ex batch with
      | nil =>
        rw [hp] at hin
        simp at hin
      | cons a as => rfl
    have htr : batchTrace uuidOf ex batch =
        recordEvs ex batch ++ [IxEv.upsert (pointIdsOf uuidOf ex batch)] := by
      simp only [batchTrace, hpts, Bool.false_eq_true, if_false]
    refine ⟨i, (recordEvs ex batch).length, hi, ?_, ?_⟩
    · rw [htr, List.getElem?_append_left hi, List.getElem?_eq_getElem hi, hgi]
    · rw [htr, List.getElem?_append_right (le_refl _)]
      simp

/-- Witness for C2 (corrected) on the concrete one-record batch. -/
theorem c2_witness :
    (batchTrace (fun s => s ++ "-u") (fun _ => Except.ok "text")
        c2CexBatch).getLast? = some (IxEv.upsert
          (pointIdsOf (fun s => s ++ "-u") (fun _ => Except.ok "text") c2CexBatch))
    ∧ ∃ i j : Nat, i < j
        ∧ (batchTrace (fun s => s ++ "-u") (fun _ => Except.ok "text")
            c2CexBatch)[i]? = some (IxEv.setIndexed "A1")
        ∧ (batchTrace (fun s => s ++ "-u") (fun _ => Except.ok "text")
            c2CexBatch)[j]? = some (IxEv.upsert
              (pointIdsOf (fun s => s ++ "-u") (fun _ => Except.ok "text") c2CexBatch)) :=
  ⟨(c2_flag_then_upsert (fun s => s ++ "-u") (fun _ => Except.ok "text")
      c2CexBatch).2.1 (by decide),
   (c2_flag_then_upsert (fun s => s ++ "-u") (fun _ => Except.ok "text")
      c2CexBatch).2.2
      { _id := "A1"
        resume := some "https://b.s3.amazonaws.com/cv.pdf"
        resume_status := "open"
        rag_uploaded := BsonVal.missing
        error := none }
      (by decide) "text" rfl⟩

theorem eligibleB_processedRecord (ex : AppRecord → Except String String)
    (r : AppRecord) : eligibleB (processedRecord ex r) = false := by
  cases hex : ex r <;> simp [processedRecord, hex, eligibleB]

theorem countEligible_step_lt (ex : AppRecord → Except String String)
    (store : List AppRecord) (h : (batchOf store).isEmpty = false) :
    countEligible (indexingStep ex store) < countEligible store := by
  obtain ⟨b, t, hbt⟩ : ∃ b t, batchOf store = b :: t := by
    cases hx : batchOf store with
    | nil =>
      rw [hx] at h
      simp at h
    | cons b t => exact ⟨b, t, rfl⟩
  have hbmem : b ∈ batchOf store := by
    rw [hbt]
    exact List.mem_cons_self b t
  have hbS : b ∈ store.filter eligibleB := List.mem_of_mem_take hbmem
  have hbid : b._id ∈ (batchOf store).map (fun x => x._id) :=
    List.mem_map_of_mem _ hbmem
  have key : countEligible (indexingStep ex store) =
      ((store.filter eligibleB).filter (fun r =>
        eligibleB (if r._id ∈ (batchOf store).map (fun x => x._id)
          then processedRecord ex r else r))).length := by
    rw [countEligible, indexingStep, List.filter_map, List.length_map,
      List.filter_filter]
    congr 1
    apply List.filter_congr
    intro x _
    by_cases hm : x._id ∈ (batchOf store).map (fun y => y._id)
    · simp [Function.comp, hm, eligibleB_processedRecord]
    · by_cases he : eligibleB x = true
      · simp [Function.comp, hm, he]
      · have he' : eligibleB x = false := by
          rw [Bool.eq_false_iff]
          exact he
        simp [Function.comp, hm, he']
  rw [key, countEligible]
  apply List.length_filter_lt_length_iff_exists.mpr
  refine ⟨b, hbS, ?_⟩
  simp [hbid, eligibleB_processedRecord]

theorem indexingLoopAux_reaches (ex : AppRecord → Except String String) :
    ∀ (n : Nat) (store : List AppRecord), countEligible store < n →
      ∃ fin, indexingLoopAux ex n store = some fin ∧ countEligible fin = 0 := by
  intro n
  induction n with
  | zero =>
    intro store h
    exact absurd h (Nat.not_lt_zero _)
  | succ n ih =>
    intro store h
    by_cases hb : (batchOf store).isEmpty = true
    · refine ⟨store, by simp [indexingLoopAux, hb], ?_⟩
      have hbn : batchOf store = [] := List.isEmpty_iff.mp hb
      rw [batchOf] at hbn
      rcases List.take_eq_nil_iff.mp hbn with h10 | hnil
      · exact absurd h10 (by simp [BATCH_SIZE])
      · rw [countEligible, hnil]
        rfl
    · have hb' : (batchOf store).isEmpty = false := by
        rw [Bool.eq_false_iff]
        exact hb
      have hlt := countEligible_step_lt ex store hb'
      obtain ⟨fin, h1, h2⟩ := ih (indexingStep ex store) (by omega)
      exact ⟨fin, by simp [indexingLoopAux, hb', h1], h2⟩

/-- C4: every batch record is marked `indexed` or `failed` and thereby leaves
the eligibility set; the eligible-record count strictly decreases on every
non-empty iteration; the polling loop therefore terminates (here: within the
explicit budget `countEligible store + 1`) in a state with no eligible
records, and it exits immediately (successfully) when an empty batch is
observed. -/
theorem c4_indexing_terminates (ex : AppRecord → Except String String)
    (store : List AppRecord) :
    (∀ r ∈ batchOf store,
        ((processedRecord ex r).resume_status = "indexed"
          ∨ (processedRecord ex r).resume_status = "failed")
        ∧ eligibleB (processedRecord ex r) = false)
    ∧ ((batchOf store).isEmpty = false →
        countEligible (indexingStep ex store) < countEligible store)
    ∧ (∃ fin, indexingLoop ex store = some fin ∧ countEligible fin = 0)
    ∧ ((batchOf store).isEmpty = true → indexingLoop ex store = some store) := by
  refine ⟨?_, countEligible_step_lt ex store, ?_, ?_⟩
  · intro r _
    refine ⟨?_, eligibleB_processedRecord ex r⟩
    cases hex : ex r
    · right
      simp [processedRecord, hex]
    · left
      simp [processedRecord, hex]
  · exact indexingLoopAux_reaches ex (countEligible store + 1) store
      (Nat.lt_succ_self _)
  · intro h
    rw [indexingLoop]
    simp [indexingLoopAux, h]

/-- Witness for C4 on a concrete one-record store and on the empty store. -/
theorem c4_witness :
    eligibleB (processedRecord (fun _ => Except.ok "text")
      { _id := "A1"
        resume := some "https://b.s3.amazonaws.com/cv.pdf"
        resume_status := "open"
        rag_uploaded := BsonVal.missing
        error := none }) = false
    ∧ countEligible (indexingStep (fun _ => Except.ok "text") c2CexBatch)
        < countEligible c2CexBatch
    ∧ indexingLoop (fun _ => Except.ok "text") ([] : List AppRecord) = some [] :=
  ⟨((c4_indexing_terminates (fun _ => Except.ok "text") c2CexBatch).1
      { _id := "A1"
        resume := some "https://b.s3.amazonaws.com/cv.pdf"
        resume_status := "open"
        rag_uploaded := BsonVal.missing
        error := none } (by decide)).2,
   (c4_indexing_terminates (fun _ => Except.ok "text") c2CexBatch).2.1 (by decide),
   (c4_indexing_terminates (fun _ => Except.ok "text") []).2.2.2 (by decide)⟩
